import Mathlib

/-!
# Verification of the macaroon V1 wire codec (`src/serialization.rs`)

Shallow embedding of the serialization/deserialization engine.  Rust byte
slices and `Vec<u8>` are `List Nat` (each element < 256 in any reachable
state); Rust `String` values are modelled by their UTF-8 byte lists.
Fallible Rust functions returning `Result<_, MacaroonError>` become
`RResult`; a Rust panic (slice index out of range, `unimplemented!()`) is the
distinguished outcome `RResult.crash`, which is not a value a Rust caller can
observe.
-/

/-- Outcome of running a fallible piece of Rust code: a value, a typed error,
or a process-aborting panic (`crash`). -/
inductive RResult (ε α : Type) where
  | ok : α → RResult ε α
  | err : ε → RResult ε α
  | crash : RResult ε α
deriving DecidableEq, Repr

/-- `MacaroonError` as used by `serialization.rs`: every failure there is
`DeserializationError` carrying a descriptive message. -/
inductive MacaroonError where
  | DeserializationError : String → MacaroonError
deriving DecidableEq, Repr

/-- Modelled from the spec: the `Caveat` struct of the Token data model (§3);
`super::macaroon` is not under `src/`.  Field types follow the spec: `id`
text, `verifier_id` and `location` optional text.  Strings are UTF-8 byte
lists. -/
structure Caveat where
  id : List Nat
  verifier_id : Option (List Nat)
  location : Option (List Nat)
deriving DecidableEq, Repr

/-- Modelled from the spec: the `Macaroon` (Token) struct of the data model
(§3): location, identifier, ordered caveat sequence, signature bytes. -/
structure Macaroon where
  location : List Nat
  identifier : List Nat
  caveats : List Caveat
  signature : List Nat
deriving DecidableEq, Repr

/-- Modelled from the spec: `Default::default()` for `Caveat` — empty id, no
verifier id, no location (derived `Default` on String/Option fields). -/
def defaultCaveat : Caveat := ⟨[], none, none⟩

/-- Modelled from the spec: `Default::default()` for `Macaroon` — empty
strings, no caveats, empty signature vector. -/
def defaultMacaroon : Macaroon := ⟨[], [], [], []⟩

/-- ASCII byte list of a Lean string literal (used only for the fixed tag
constants, which are all ASCII). -/
def ascii (s : String) : List Nat := s.toList.map Char.toNat

def LOCATION : List Nat := ascii "location"
def IDENTIFIER : List Nat := ascii "identifier"
def SIGNATURE : List Nat := ascii "signature"
def CID : List Nat := ascii "cid"
def VID : List Nat := ascii "vid"
def CL : List Nat := ascii "cl"

def HEADER_SIZE : Nat := 4

/-- `to_hex_char`: `format!("{:1x}", value)` of a `u8`, then the first byte of
that hex string.  For `value < 16` this is the single lowercase hex digit;
for larger bytes the first (high-nibble) digit.  Callers only pass nibbles. -/
def to_hex_char (value : Nat) : Nat :=
  let hexDigit : Nat → Nat := fun d => if d < 10 then 48 + d else 87 + d
  if value < 16 then hexDigit value else hexDigit (value / 16 % 16)

/-- `packet_header`: the four hex characters of `size`'s low 16 bits,
`(size >> 12) & 15` down to `size & 15`. -/
def packet_header (size : Nat) : List Nat :=
  [to_hex_char (size / 4096 % 16), to_hex_char (size / 256 % 16),
   to_hex_char (size / 16 % 16), to_hex_char (size % 16)]

/-- `serialize_as_packet`: `[header][tag][space][value][newline]` where the
header encodes `HEADER_SIZE + 2 + tag.len() + value.len()`. -/
def serialize_as_packet (tag : List Nat) (value : List Nat) : List Nat :=
  let size := HEADER_SIZE + 2 + tag.length + value.length
  packet_header size ++ tag ++ [32] ++ value ++ [10]

/-- The byte for position `v` (< 64) of rustc-serialize's `STANDARD_CHARS`
alphabet `A-Za-z0-9+/`. -/
def b64chr (v : Nat) : Nat :=
  if v < 26 then 65 + v
  else if v < 52 then 97 + (v - 26)
  else if v < 62 then 48 + (v - 52)
  else if v = 62 then 43
  else 47

/-- rustc-serialize `to_base64(STANDARD)`: 3-byte chunks become 4 alphabet
characters (`n = b1<<16 | b2<<8 | b3`, emit the four 6-bit groups); a trailing
1- or 2-byte remainder is emitted with `=` padding (`STANDARD` has
`pad: true` and no line wrapping). -/
def to_base64 : List Nat → List Nat
  | b1 :: b2 :: b3 :: rest =>
    let n := b1 * 65536 + b2 * 256 + b3
    b64chr (n / 262144 % 64) :: b64chr (n / 4096 % 64) :: b64chr (n / 64 % 64) ::
      b64chr (n % 64) :: to_base64 rest
  | [b1, b2] =>
    let n := b1 * 65536 + b2 * 256
    [b64chr (n / 262144 % 64), b64chr (n / 4096 % 64), b64chr (n / 64 % 64), 61]
  | [b1] =>
    let n := b1 * 65536
    [b64chr (n / 262144 % 64), b64chr (n / 4096 % 64), 61, 61]
  | [] => []

/-- The body of the `for caveat in &macaroon.caveats` loop of
`serialize_v1`: a `cid` packet, then optional `vid` and `cl` packets. -/
def serializeCaveat (caveat : Caveat) : List Nat :=
  serialize_as_packet CID caveat.id ++
  (match caveat.verifier_id with
   | some verifier_id => serialize_as_packet VID verifier_id
   | none => []) ++
  (match caveat.location with
   | some location => serialize_as_packet CL location
   | none => [])

/-- `serialize_v1`: concatenate the location, identifier, caveat and
signature packets, base64 the result.  Always `Ok`. -/
def serialize_v1 (macaroon : Macaroon) : RResult MacaroonError (List Nat) :=
  .ok (to_base64 (
    serialize_as_packet LOCATION macaroon.location ++
    serialize_as_packet IDENTIFIER macaroon.identifier ++
    (macaroon.caveats.map serializeCaveat).flatten ++
    serialize_as_packet SIGNATURE macaroon.signature))

/-- `serialize_v2`: the stub returns `Ok("".to_string())`. -/
def serialize_v2 (_macaroon : Macaroon) : RResult MacaroonError (List Nat) :=
  .ok []

/-- `serialize_v2j`: the stub returns `Ok("".to_string())`. -/
def serialize_v2j (_macaroon : Macaroon) : RResult MacaroonError (List Nat) :=
  .ok []

/-- The per-character classification of rustc-serialize `from_base64`:
`A-Z`, `a-z`, `0-9`, `+`/`-`, `/`/`_` give a 6-bit value (both the standard
and URL-safe alphabets are accepted); everything else is handled by the loop
itself. -/
def b64Val (b : Nat) : Option Nat :=
  if 65 ≤ b ∧ b ≤ 90 then some (b - 65)
  else if 97 ≤ b ∧ b ≤ 122 then some (b - 71)
  else if 48 ≤ b ∧ b ≤ 57 then some (b + 4)
  else if b = 43 ∨ b = 45 then some 62
  else if b = 47 ∨ b = 95 then some 63
  else none

/-- The `match modulus` epilogue of `from_base64`: 2 leftover characters give
one byte (`buf >> 10`), 3 give two bytes (`buf >> 16`, `buf >> 8`), 0 gives
nothing, and 1 is `InvalidBase64Length`. -/
def b64Finish (buf modulus : Nat) (acc : List Nat) :
    RResult MacaroonError (List Nat) :=
  if modulus = 2 then .ok (acc ++ [buf / 1024 % 256])
  else if modulus = 3 then .ok (acc ++ [buf / 65536 % 256, buf / 256 % 256])
  else if modulus = 0 then .ok acc
  else .err (.DeserializationError "Invalid input length")

/-- The main `from_base64` loop.  `buf` is the `u32` accumulator (`buf |= val;
buf <<= 6`, wrapping mod 2^32), `modulus` counts characters in the current
quad; every full quad pushes `buf >> 22`, `buf >> 14`, `buf >> 6` as bytes.
`\r`/`\n` are skipped; `=` stops the loop and the remaining characters must
all be `=`, `\r` or `\n`. -/
def b64DecodeLoop : List Nat → Nat → Nat → List Nat →
    RResult MacaroonError (List Nat)
  | [], buf, modulus, acc => b64Finish buf modulus acc
  | b :: rest, buf, modulus, acc =>
    match b64Val b with
    | some v =>
      let buf1 := ((buf ||| v) * 64) % 4294967296
      if modulus + 1 = 4 then
        b64DecodeLoop rest buf1 0
          (acc ++ [buf1 / 4194304 % 256, buf1 / 16384 % 256, buf1 / 64 % 256])
      else
        b64DecodeLoop rest buf1 (modulus + 1) acc
    | none =>
      if b = 13 ∨ b = 10 then b64DecodeLoop rest buf modulus acc
      else if b = 61 then
        if rest.all (fun x => x == 61 || x == 13 || x == 10) then
          b64Finish buf modulus acc
        else .err (.DeserializationError "Invalid character")
      else .err (.DeserializationError "Invalid character")

/-- `base64_decode`: run `from_base64` on the input text's bytes, mapping the
library error to `MacaroonError::DeserializationError`. -/
def base64_decode (base64 : List Nat) : RResult MacaroonError (List Nat) :=
  b64DecodeLoop base64 0 0 []

/-- Is `b` a UTF-8 continuation byte (`0x80..=0xBF`)? -/
def isCont (b : Nat) : Bool := 128 ≤ b && b ≤ 191

/-- Continuation check: one continuation byte whose value must lie in
`lo..=hi`, returning the remaining bytes. -/
def cont1 (lo hi : Nat) : List Nat → Option (List Nat)
  | c1 :: r => if lo ≤ c1 ∧ c1 ≤ hi then some r else none
  | [] => none

/-- Continuation check: a first continuation byte in `lo..=hi`, then one
ordinary continuation byte. -/
def cont2 (lo hi : Nat) : List Nat → Option (List Nat)
  | c1 :: c2 :: r =>
    if (lo ≤ c1 ∧ c1 ≤ hi) ∧ isCont c2 then some r else none
  | _ => none

/-- Continuation check: a first continuation byte in `lo..=hi`, then two
ordinary continuation bytes. -/
def cont3 (lo hi : Nat) : List Nat → Option (List Nat)
  | c1 :: c2 :: c3 :: r =>
    if (lo ≤ c1 ∧ c1 ≤ hi) ∧ isCont c2 ∧ isCont c3 then some r else none
  | _ => none

/-- One character step of Rust's strict UTF-8 validation table (as run by
`String::from_utf8`): given the lead byte `b` and the remaining bytes, return
the bytes after this character, or `none` if the sequence is malformed
(missing/invalid continuation bytes, overlongs via the restricted ranges of
`0xE0`/`0xED`/`0xF0`/`0xF4`, lead bytes `0x80..=0xC1` and `0xF5..`). -/
def utf8Step (b : Nat) (rest : List Nat) : Option (List Nat) :=
  if b ≤ 127 then some rest
  else if 194 ≤ b ∧ b ≤ 223 then cont1 128 191 rest
  else if b = 224 then cont2 160 191 rest
  else if (225 ≤ b ∧ b ≤ 236) ∨ b = 238 ∨ b = 239 then cont2 128 191 rest
  else if b = 237 then cont2 128 159 rest
  else if b = 240 then cont3 144 191 rest
  else if 241 ≤ b ∧ b ≤ 243 then cont3 128 191 rest
  else if b = 244 then cont3 128 143 rest
  else none

/-- The validation loop, stepping one character at a time.  `fuel` bounds the
number of characters; any `fuel ≥ length` behaves identically
(`validUtf8Fuel_congr`), and each character consumes at least one byte. -/
def validUtf8Fuel : Nat → List Nat → Bool
  | _, [] => true
  | 0, _ :: _ => false
  | fuel + 1, b :: rest =>
    match utf8Step b rest with
    | some r => validUtf8Fuel fuel r
    | none => false

/-- Strict UTF-8 validity of a byte list, as checked by Rust's
`String::from_utf8`. -/
def validUtf8 (l : List Nat) : Bool := validUtf8Fuel l.length l

/-- The `try_utf8!` macro: `String::from_utf8` of the bytes, turning a UTF-8
error into `DeserializationError`.  A Rust `String` is its byte list, so
success returns the bytes unchanged. -/
def try_utf8 (bytes : List Nat) : RResult MacaroonError (List Nat) :=
  if validUtf8 bytes then .ok bytes
  else .err (.DeserializationError "invalid utf-8")

/-- Helper: one byte matching `p`, returning the rest. -/
def ws1 (p : Nat → Bool) : List Nat → Option (List Nat)
  | c :: r => if p c then some r else none
  | [] => none

/-- Helper: two bytes matching `p`, returning the rest. -/
def ws2 (p : Nat → Nat → Bool) : List Nat → Option (List Nat)
  | c1 :: c2 :: r => if p c1 c2 then some r else none
  | _ => none

/-- One whitespace character at the front of a UTF-8 byte string, for
`str::trim` (`char::is_whitespace`: U+0009–U+000D, U+0020, U+0085, U+00A0,
U+1680, U+2000–U+200A, U+2028, U+2029, U+202F, U+205F, U+3000, matched here
as their UTF-8 byte sequences); `none` when the first character is not
whitespace. -/
def wsTail : List Nat → Option (List Nat)
  | [] => none
  | b :: r =>
    if b = 9 ∨ b = 10 ∨ b = 11 ∨ b = 12 ∨ b = 13 ∨ b = 32 then some r
    else if b = 194 then ws1 (fun c => c == 133 || c == 160) r
    else if b = 225 then ws2 (fun c1 c2 => c1 == 154 && c2 == 128) r
    else if b = 226 then
      ws2 (fun c1 c2 =>
        (c1 == 128 && (decide (128 ≤ c2 ∧ c2 ≤ 138) || c2 == 168 ||
          c2 == 169 || c2 == 175)) || (c1 == 129 && c2 == 159)) r
    else if b = 227 then ws2 (fun c1 c2 => c1 == 128 && c2 == 128) r
    else none

/-- One whitespace character at the END of a UTF-8 byte string, read off the
reversed byte list (the same character set with reversed UTF-8 sequences —
unambiguous on valid UTF-8 since lead bytes are never continuation bytes). -/
def wsRevTail : List Nat → Option (List Nat)
  | [] => none
  | b :: r =>
    if b = 9 ∨ b = 10 ∨ b = 11 ∨ b = 12 ∨ b = 13 ∨ b = 32 then some r
    else if b = 133 ∨ b = 160 then ws1 (fun c => c == 194) r
    else if b = 128 then
      ws2 (fun c1 c2 => (c1 == 154 && c2 == 225) ||
        (c1 == 128 && (c2 == 226 || c2 == 227))) r
    else if (129 ≤ b ∧ b ≤ 138) ∨ b = 168 ∨ b = 169 ∨ b = 175 then
      ws2 (fun c1 c2 => c1 == 128 && c2 == 226) r
    else if b = 159 then ws2 (fun c1 c2 => c1 == 129 && c2 == 226) r
    else none

/-- Drop leading whitespace characters one at a time (`fuel ≥ length`
suffices, each character consuming at least one byte). -/
def trimLeftFuel (step : List Nat → Option (List Nat)) :
    Nat → List Nat → List Nat
  | 0, l => l
  | fuel + 1, l =>
    match step l with
    | some r => trimLeftFuel step fuel r
    | none => l

/-- `str::trim_start` on UTF-8 bytes. -/
def trimLeftB (l : List Nat) : List Nat := trimLeftFuel wsTail l.length l

/-- `str::trim_end` on UTF-8 bytes, via the reversed list. -/
def trimRevB (l : List Nat) : List Nat := trimLeftFuel wsRevTail l.length l

/-- `str::trim`: strip whitespace from both ends of a (valid UTF-8) byte
string. -/
def trimBytes (l : List Nat) : List Nat :=
  trimLeftB ((trimRevB l.reverse).reverse)

/-- The raw `(key, value)` packet produced by `deserialize_as_packets`. -/
structure Packet where
  key : List Nat
  value : List Nat
deriving DecidableEq, Repr

/-- `get_split_index`: position of the first space byte of a packet body, an
error if there is none (returned here as `Option`, mapped to
`DeserializationError("Key/value error")` at the call site). -/
def get_split_index : List Nat → Option Nat
  | [] => none
  | b :: rest =>
    if b = 32 then some 0 else (get_split_index rest).map (· + 1)

/-- A hex digit for `usize::from_str_radix(_, 16)` (`char::to_digit(16)`:
`0-9`, `a-f`, `A-F`). -/
def hexDigitVal (b : Nat) : Option Nat :=
  if 48 ≤ b ∧ b ≤ 57 then some (b - 48)
  else if 97 ≤ b ∧ b ≤ 102 then some (b - 87)
  else if 65 ≤ b ∧ b ≤ 70 then some (b - 55)
  else none

def hexFold : List Nat → Nat → Option Nat
  | [], acc => some acc
  | b :: rest, acc =>
    match hexDigitVal b with
    | some d => hexFold rest (acc * 16 + d)
    | none => none

/-- `usize::from_str_radix(hex, 16)` on the header bytes: an optional leading
`+`, then one or more hex digits (no overflow can occur on a 4-byte header).
`none` is the `ParseIntError` case. -/
def from_str_radix16 (bytes : List Nat) : Option Nat :=
  match bytes with
  | [] => none
  | 43 :: rest => if rest = [] then none else hexFold rest 0
  | _ => hexFold bytes 0

/-- One pass of `deserialize_as_packets`, with an explicit `fuel` bound on the
recursion depth (the Rust source recurses once per packet; any
`fuel > data.length` is enough, see `deserializePacketsFuel_congr`).  Mirrors
the source line by line: empty input returns the accumulated packets;
`&data[..4]` panics if fewer than 4 bytes remain; the header must be UTF-8
and parse as hex; `&data[4..size]` panics if `size < 4` or `size` exceeds the
remaining bytes; the body splits at its first space; the key must be UTF-8;
the value is everything after the space (including the trailing newline). -/
def deserializePacketsFuel : Nat → List Nat → List Packet →
    RResult MacaroonError (List Packet)
  | _, [], packets => .ok packets
  | 0, _ :: _, _ => .crash
  | fuel + 1, data@(_ :: _), packets =>
    if data.length < 4 then .crash
    else if ¬ validUtf8 (data.take 4) then
      .err (.DeserializationError "invalid utf-8")
    else
      match from_str_radix16 (data.take 4) with
      | none => .err (.DeserializationError "invalid digit")
      | some size =>
        if size < 4 ∨ data.length < size then .crash
        else
          let packet_data := (data.take size).drop 4
          match get_split_index packet_data with
          | none => .err (.DeserializationError "Key/value error")
          | some index =>
            let key_slice := packet_data.take index
            let value_slice := packet_data.drop index
            if ¬ validUtf8 key_slice then
              .err (.DeserializationError "invalid utf-8")
            else
              deserializePacketsFuel fuel (data.drop size)
                (packets ++ [⟨key_slice, value_slice.drop 1⟩])

/-- `deserialize_as_packets` proper. -/
def deserialize_as_packets (data : List Nat) (packets : List Packet) :
    RResult MacaroonError (List Packet) :=
  deserializePacketsFuel (data.length + 1) data packets

/-- One arm of the `match packet.key.as_str()` in `deserialize_v1`, threading
the `(macaroon, caveat)` accumulator pair.  The `cid` arm with a non-empty
accumulator pushes the finished caveat and resets the accumulator — the new
packet's value is discarded, exactly as in the source.  The `signature` arm
first flushes a non-empty accumulator, then `&packet.value[..32]` panics if
the value is shorter than 32 bytes. -/
def processPacket (macaroon : Macaroon) (caveat : Caveat) (packet : Packet) :
    RResult MacaroonError (Macaroon × Caveat) :=
  if packet.key = LOCATION then
    match try_utf8 packet.value with
    | .ok s => .ok ({ macaroon with location := trimBytes s }, caveat)
    | .err e => .err e
    | .crash => .crash
  else if packet.key = IDENTIFIER then
    match try_utf8 packet.value with
    | .ok s => .ok ({ macaroon with identifier := trimBytes s }, caveat)
    | .err e => .err e
    | .crash => .crash
  else if packet.key = SIGNATURE then
    let flushed : Macaroon × Caveat :=
      if ¬ caveat.id = [] then
        ({ macaroon with caveats := macaroon.caveats ++ [caveat] }, defaultCaveat)
      else (macaroon, caveat)
    if packet.value.length < 32 then .crash
    else .ok ({ flushed.1 with signature := packet.value.take 32 }, flushed.2)
  else if packet.key = CID then
    if caveat.id = [] then
      match try_utf8 packet.value with
      | .ok s => .ok (macaroon, { caveat with id := trimBytes s })
      | .err e => .err e
      | .crash => .crash
    else
      .ok ({ macaroon with caveats := macaroon.caveats ++ [caveat] }, defaultCaveat)
  else if packet.key = VID then
    match try_utf8 packet.value with
    | .ok s => .ok (macaroon, { caveat with verifier_id := some (trimBytes s) })
    | .err e => .err e
    | .crash => .crash
  else if packet.key = CL then
    match try_utf8 packet.value with
    | .ok s => .ok (macaroon, { caveat with location := some (trimBytes s) })
    | .err e => .err e
    | .crash => .crash
  else .err (.DeserializationError "Unknown key")

/-- The `for packet in packets` loop of `deserialize_v1`. -/
def foldPackets : List Packet → Macaroon → Caveat →
    RResult MacaroonError (Macaroon × Caveat)
  | [], macaroon, caveat => .ok (macaroon, caveat)
  | packet :: rest, macaroon, caveat =>
    match processPacket macaroon caveat packet with
    | .ok (m, c) => foldPackets rest m c
    | .err e => .err e
    | .crash => .crash

/-- `deserialize_v1`: base64-decode, split into packets, fold the packet
stream into a `Macaroon` starting from the default macaroon and default
caveat accumulator. -/
def deserialize_v1 (base64 : List Nat) : RResult MacaroonError Macaroon :=
  match base64_decode base64 with
  | .err e => .err e
  | .crash => .crash
  | .ok data =>
    match deserialize_as_packets data [] with
    | .err e => .err e
    | .crash => .crash
    | .ok packets =>
      match foldPackets packets defaultMacaroon defaultCaveat with
      | .ok (macaroon, _) => .ok macaroon
      | .err e => .err e
      | .crash => .crash

/-- `deserialize_v2`: `unimplemented!()` — a panic, not a typed error. -/
def deserialize_v2 (_data : List Nat) : RResult MacaroonError Macaroon :=
  .crash

/-- `deserialize_v2j`: `unimplemented!()` — a panic, not a typed error. -/
def deserialize_v2j (_data : List Nat) : RResult MacaroonError Macaroon :=
  .crash

theorem lor64_eq_add (a b : Nat) (ha : a % 64 = 0) (hb : b < 64) : a ||| b = a + b := by
  obtain ⟨q, hq⟩ : 64 ∣ a := Nat.dvd_of_mod_eq_zero ha
  subst hq
  apply Nat.eq_of_testBit_eq
  intro i
  rw [Nat.testBit_or]
  rw [show (64 : Nat) * q + b = 2 ^ 6 * q + b by norm_num]
  rw [Nat.testBit_mul_pow_two_add q (by omega) i]
  rw [show (64 : Nat) * q = 2 ^ 6 * q by norm_num, Nat.testBit_mul_pow_two]
  by_cases h : i < 6
  · simp [h, Nat.not_le.mpr h]
  · have hbf : b.testBit i = false :=
      Nat.testBit_lt_two_pow (lt_of_lt_of_le hb (by
        calc (64 : Nat) = 2 ^ 6 := by norm_num
        _ ≤ 2 ^ i := Nat.pow_le_pow_right (by omega) (by omega)))
    simp [h, hbf, Nat.le_of_not_lt (by omega : ¬ i < 6)]

theorem b64Val_b64chr : ∀ v < 64, b64Val (b64chr v) = some v := by decide

/-- Four alphabet characters with values `v1..v4` advance the decode loop by
one quad: the three bytes they encode are pushed, and the `u32` accumulator
stays divisible by 64. -/
theorem b64_loop_quad (v1 v2 v3 v4 : Nat) (hv1 : v1 < 64) (hv2 : v2 < 64)
    (hv3 : v3 < 64) (hv4 : v4 < 64) (cs : List Nat) (buf : Nat)
    (hbuf : buf % 64 = 0) (acc : List Nat) :
    b64DecodeLoop (b64chr v1 :: b64chr v2 :: b64chr v3 :: b64chr v4 :: cs)
        buf 0 acc =
      b64DecodeLoop cs
        (((((buf + v1) * 64 % 4294967296 + v2) * 64 % 4294967296 + v3)
            * 64 % 4294967296 + v4) * 64 % 4294967296) 0
        (acc ++ [((((buf + v1) * 64 % 4294967296 + v2) * 64 % 4294967296 + v3)
            * 64 % 4294967296 + v4) * 64 % 4294967296 / 4194304 % 256,
          ((((buf + v1) * 64 % 4294967296 + v2) * 64 % 4294967296 + v3)
            * 64 % 4294967296 + v4) * 64 % 4294967296 / 16384 % 256,
          ((((buf + v1) * 64 % 4294967296 + v2) * 64 % 4294967296 + v3)
            * 64 % 4294967296 + v4) * 64 % 4294967296 / 64 % 256]) := by
  have e1 : buf ||| v1 = buf + v1 := lor64_eq_add _ _ hbuf hv1
  have m1 : (buf + v1) * 64 % 4294967296 % 64 = 0 := by omega
  have e2 : (buf + v1) * 64 % 4294967296 ||| v2 =
      (buf + v1) * 64 % 4294967296 + v2 := lor64_eq_add _ _ m1 hv2
  have m2 : ((buf + v1) * 64 % 4294967296 + v2) * 64 % 4294967296 % 64 = 0 := by
    omega
  have e3 : ((buf + v1) * 64 % 4294967296 + v2) * 64 % 4294967296 ||| v3 =
      ((buf + v1) * 64 % 4294967296 + v2) * 64 % 4294967296 + v3 :=
    lor64_eq_add _ _ m2 hv3
  have m3 : (((buf + v1) * 64 % 4294967296 + v2) * 64 % 4294967296 + v3)
      * 64 % 4294967296 % 64 = 0 := by omega
  have e4 : (((buf + v1) * 64 % 4294967296 + v2) * 64 % 4294967296 + v3)
        * 64 % 4294967296 ||| v4 =
      (((buf + v1) * 64 % 4294967296 + v2) * 64 % 4294967296 + v3)
        * 64 % 4294967296 + v4 := lor64_eq_add _ _ m3 hv4
  norm_num [b64DecodeLoop, b64Val_b64chr v1 hv1, b64Val_b64chr v2 hv2,
    b64Val_b64chr v3 hv3, b64Val_b64chr v4 hv4, e1, e2, e3, e4]

/-- The decode loop inverts the encoder: decoding the encoding of any byte
list appends exactly those bytes, from any 64-divisible accumulator state. -/
theorem b64_roundtrip_loop : ∀ (k : Nat) (bs : List Nat), bs.length ≤ k →
    (∀ b ∈ bs, b < 256) → ∀ (buf : Nat), buf % 64 = 0 → ∀ (acc : List Nat),
    b64DecodeLoop (to_base64 bs) buf 0 acc = .ok (acc ++ bs) := by
  intro k
  induction k with
  | zero =>
    intro bs hlen _ buf hbuf acc
    have hnil : bs = [] := List.length_eq_zero.mp (Nat.le_zero.mp hlen)
    subst hnil
    simp [to_base64, b64DecodeLoop, b64Finish]
  | succ k ih =>
    intro bs hlen hb buf hbuf acc
    rcases bs with _ | ⟨b1, _ | ⟨b2, _ | ⟨b3, rest⟩⟩⟩
    · simp [to_base64, b64DecodeLoop, b64Finish]
    · have h1 : b1 < 256 := hb b1 (by simp)
      have hv1 : b1 * 65536 / 262144 % 64 < 64 := Nat.mod_lt _ (by norm_num)
      have hv2 : b1 * 65536 / 4096 % 64 < 64 := Nat.mod_lt _ (by norm_num)
      have e1 : buf ||| b1 * 65536 / 262144 % 64 =
          buf + b1 * 65536 / 262144 % 64 := lor64_eq_add _ _ hbuf hv1
      have m1 : (buf + b1 * 65536 / 262144 % 64) * 64 % 4294967296 % 64 = 0 := by
        omega
      have e2 : (buf + b1 * 65536 / 262144 % 64) * 64 % 4294967296 |||
            b1 * 65536 / 4096 % 64 =
          (buf + b1 * 65536 / 262144 % 64) * 64 % 4294967296 +
            b1 * 65536 / 4096 % 64 := lor64_eq_add _ _ m1 hv2
      have hval61 : b64Val 61 = none := rfl
      norm_num [to_base64, b64DecodeLoop, b64Val_b64chr _ hv1,
        b64Val_b64chr _ hv2, e1, e2, hval61, b64Finish, List.all_cons]
      omega
    · have h1 : b1 < 256 := hb b1 (by simp)
      have h2 : b2 < 256 := hb b2 (by simp)
      have hv1 : (b1 * 65536 + b2 * 256) / 262144 % 64 < 64 :=
        Nat.mod_lt _ (by norm_num)
      have hv2 : (b1 * 65536 + b2 * 256) / 4096 % 64 < 64 :=
        Nat.mod_lt _ (by norm_num)
      have hv3 : (b1 * 65536 + b2 * 256) / 64 % 64 < 64 :=
        Nat.mod_lt _ (by norm_num)
      have e1 : buf ||| (b1 * 65536 + b2 * 256) / 262144 % 64 =
          buf + (b1 * 65536 + b2 * 256) / 262144 % 64 :=
        lor64_eq_add _ _ hbuf hv1
      have m1 : (buf + (b1 * 65536 + b2 * 256) / 262144 % 64) * 64
          % 4294967296 % 64 = 0 := by omega
      have e2 : (buf + (b1 * 65536 + b2 * 256) / 262144 % 64) * 64 % 4294967296
            ||| (b1 * 65536 + b2 * 256) / 4096 % 64 =
          (buf + (b1 * 65536 + b2 * 256) / 262144 % 64) * 64 % 4294967296 +
            (b1 * 65536 + b2 * 256) / 4096 % 64 := lor64_eq_add _ _ m1 hv2
      have m2 : ((buf + (b1 * 65536 + b2 * 256) / 262144 % 64) * 64 % 4294967296
          + (b1 * 65536 + b2 * 256) / 4096 % 64) * 64 % 4294967296 % 64 = 0 := by
        omega
      have e3 : ((buf + (b1 * 65536 + b2 * 256) / 262144 % 64) * 64 % 4294967296
            + (b1 * 65536 + b2 * 256) / 4096 % 64) * 64 % 4294967296 |||
            (b1 * 65536 + b2 * 256) / 64 % 64 =
          ((buf + (b1 * 65536 + b2 * 256) / 262144 % 64) * 64 % 4294967296
            + (b1 * 65536 + b2 * 256) / 4096 % 64) * 64 % 4294967296 +
            (b1 * 65536 + b2 * 256) / 64 % 64 := lor64_eq_add _ _ m2 hv3
      have hval61 : b64Val 61 = none := rfl
      norm_num [to_base64, b64DecodeLoop, b64Val_b64chr _ hv1,
        b64Val_b64chr _ hv2, b64Val_b64chr _ hv3, e1, e2, e3, hval61,
        b64Finish, List.all_cons]
      constructor
      · omega
      · omega
    · have h1 : b1 < 256 := hb b1 (by simp)
      have h2 : b2 < 256 := hb b2 (by simp)
      have h3 : b3 < 256 := hb b3 (by simp)
      have hrest : ∀ b ∈ rest, b < 256 := fun b hmem => hb b (by simp [hmem])
      have hlen' : rest.length ≤ k := by
        simp only [List.length_cons] at hlen; omega
      have hv1 : (b1 * 65536 + b2 * 256 + b3) / 262144 % 64 < 64 :=
        Nat.mod_lt _ (by norm_num)
      have hv2 : (b1 * 65536 + b2 * 256 + b3) / 4096 % 64 < 64 :=
        Nat.mod_lt _ (by norm_num)
      have hv3 : (b1 * 65536 + b2 * 256 + b3) / 64 % 64 < 64 :=
        Nat.mod_lt _ (by norm_num)
      have hv4 : (b1 * 65536 + b2 * 256 + b3) % 64 < 64 :=
        Nat.mod_lt _ (by norm_num)
      have hquad := b64_loop_quad _ _ _ _ hv1 hv2 hv3 hv4 (to_base64 rest)
        buf hbuf acc
      have hunf : to_base64 (b1 :: b2 :: b3 :: rest) =
          b64chr ((b1 * 65536 + b2 * 256 + b3) / 262144 % 64) ::
          b64chr ((b1 * 65536 + b2 * 256 + b3) / 4096 % 64) ::
          b64chr ((b1 * 65536 + b2 * 256 + b3) / 64 % 64) ::
          b64chr ((b1 * 65536 + b2 * 256 + b3) % 64) :: to_base64 rest := rfl
      rw [hunf, hquad]
      rw [ih rest hlen' hrest _ (by omega) _]
      have hb1 : ((((buf + (b1 * 65536 + b2 * 256 + b3) / 262144 % 64) * 64
          % 4294967296 + (b1 * 65536 + b2 * 256 + b3) / 4096 % 64) * 64
          % 4294967296 + (b1 * 65536 + b2 * 256 + b3) / 64 % 64) * 64
          % 4294967296 + (b1 * 65536 + b2 * 256 + b3) % 64) * 64
          % 4294967296 / 4194304 % 256 = b1 := by omega
      have hb2 : ((((buf + (b1 * 65536 + b2 * 256 + b3) / 262144 % 64) * 64
          % 4294967296 + (b1 * 65536 + b2 * 256 + b3) / 4096 % 64) * 64
          % 4294967296 + (b1 * 65536 + b2 * 256 + b3) / 64 % 64) * 64
          % 4294967296 + (b1 * 65536 + b2 * 256 + b3) % 64) * 64
          % 4294967296 / 16384 % 256 = b2 := by omega
      have hb3 : ((((buf + (b1 * 65536 + b2 * 256 + b3) / 262144 % 64) * 64
          % 4294967296 + (b1 * 65536 + b2 * 256 + b3) / 4096 % 64) * 64
          % 4294967296 + (b1 * 65536 + b2 * 256 + b3) / 64 % 64) * 64
          % 4294967296 + (b1 * 65536 + b2 * 256 + b3) % 64) * 64
          % 4294967296 / 64 % 256 = b3 := by omega
      rw [hb1, hb2, hb3]
      simp

/-- `from_base64 ∘ to_base64` is the identity on byte lists. -/
theorem base64_decode_to_base64 (bs : List Nat) (h : ∀ b ∈ bs, b < 256) :
    base64_decode (to_base64 bs) = .ok bs := by
  simpa [base64_decode] using
    b64_roundtrip_loop bs.length bs le_rfl h 0 (by omega) []

theorem hexDigitVal_to_hex_char : ∀ d < 16, hexDigitVal (to_hex_char d) = some d := by
  decide

theorem to_hex_char_ascii : ∀ d < 16, to_hex_char d ≤ 127 := by decide

theorem validUtf8Fuel_of_ascii : ∀ (f : Nat) (l : List Nat), l.length ≤ f →
    (∀ b ∈ l, b ≤ 127) → validUtf8Fuel f l = true := by
  intro f
  induction f with
  | zero =>
    intro l hl _
    rw [List.length_eq_zero.mp (Nat.le_zero.mp hl)]
    rfl
  | succ f ih =>
    intro l hl h
    cases l with
    | nil => rfl
    | cons b rest =>
      have hb : b ≤ 127 := h b (by simp)
      have hstep : utf8Step b rest = some rest := by simp [utf8Step, hb]
      simp only [validUtf8Fuel, hstep]
      exact ih rest (by simp only [List.length_cons] at hl; omega)
        fun x hx => h x (by simp [hx])

theorem validUtf8_of_ascii (l : List Nat) (h : ∀ b ∈ l, b ≤ 127) :
    validUtf8 l = true :=
  validUtf8Fuel_of_ascii l.length l le_rfl h

theorem packet_header_ascii (size : Nat) : ∀ b ∈ packet_header size, b ≤ 127 := by
  intro b hb
  simp only [packet_header, List.mem_cons, List.not_mem_nil, or_false] at hb
  rcases hb with h | h | h | h <;>
    exact h ▸ to_hex_char_ascii _ (Nat.mod_lt _ (by norm_num))

theorem from_str_radix16_cons (x : Nat) (rest : List Nat) (hx : x ≠ 43) :
    from_str_radix16 (x :: rest) = hexFold (x :: rest) 0 := by
  unfold from_str_radix16
  split
  · rename_i heq; exact absurd heq (by simp)
  · rename_i heq; rw [List.cons.injEq] at heq; exact absurd heq.1 hx
  · rfl

theorem hexFold_cons (b : Nat) (rest : List Nat) (acc d : Nat)
    (h : hexDigitVal b = some d) :
    hexFold (b :: rest) acc = hexFold rest (acc * 16 + d) := by
  simp [hexFold, h]

theorem hexFold_nil (acc : Nat) : hexFold [] acc = some acc := rfl

theorem from_str_radix16_header (size : Nat) (h : size ≤ 65535) :
    from_str_radix16 (packet_header size) = some size := by
  have d1 : hexDigitVal (to_hex_char (size / 4096 % 16)) = some (size / 4096 % 16) :=
    hexDigitVal_to_hex_char _ (Nat.mod_lt _ (by norm_num))
  have d2 : hexDigitVal (to_hex_char (size / 256 % 16)) = some (size / 256 % 16) :=
    hexDigitVal_to_hex_char _ (Nat.mod_lt _ (by norm_num))
  have d3 : hexDigitVal (to_hex_char (size / 16 % 16)) = some (size / 16 % 16) :=
    hexDigitVal_to_hex_char _ (Nat.mod_lt _ (by norm_num))
  have d4 : hexDigitVal (to_hex_char (size % 16)) = some (size % 16) :=
    hexDigitVal_to_hex_char _ (Nat.mod_lt _ (by norm_num))
  have hne : to_hex_char (size / 4096 % 16) ≠ 43 := by
    have h16 : size / 4096 % 16 < 16 := Nat.mod_lt _ (by norm_num)
    have hall : ∀ d < 16, to_hex_char d ≠ 43 := by decide
    exact hall _ h16
  rw [show packet_header size = to_hex_char (size / 4096 % 16) ::
    [to_hex_char (size / 256 % 16), to_hex_char (size / 16 % 16),
     to_hex_char (size % 16)] from rfl]
  rw [from_str_radix16_cons _ _ hne]
  rw [hexFold_cons _ _ _ _ d1, hexFold_cons _ _ _ _ d2,
    hexFold_cons _ _ _ _ d3, hexFold_cons _ _ _ _ d4, hexFold_nil]
  rw [Option.some.injEq]
  omega

theorem cont1_length (lo hi : Nat) (rest r : List Nat)
    (h : cont1 lo hi rest = some r) : r.length ≤ rest.length := by
  cases rest with
  | nil => simp [cont1] at h
  | cons c1 t =>
    simp only [cont1] at h
    split_ifs at h
    simp only [Option.some.injEq] at h
    subst h
    simp only [List.length_cons]
    omega

theorem cont2_length (lo hi : Nat) (rest r : List Nat)
    (h : cont2 lo hi rest = some r) : r.length ≤ rest.length := by
  rcases rest with _ | ⟨c1, _ | ⟨c2, t⟩⟩ <;> simp only [cont2] at h
  · simp at h
  · simp at h
  · split_ifs at h
    simp only [Option.some.injEq] at h
    subst h
    simp only [List.length_cons]
    omega

theorem cont3_length (lo hi : Nat) (rest r : List Nat)
    (h : cont3 lo hi rest = some r) : r.length ≤ rest.length := by
  rcases rest with _ | ⟨c1, _ | ⟨c2, _ | ⟨c3, t⟩⟩⟩ <;> simp only [cont3] at h
  · simp at h
  · simp at h
  · simp at h
  · split_ifs at h
    simp only [Option.some.injEq] at h
    subst h
    simp only [List.length_cons]
    omega

theorem cont1_append (lo hi : Nat) (rest r ys : List Nat)
    (h : cont1 lo hi rest = some r) :
    cont1 lo hi (rest ++ ys) = some (r ++ ys) := by
  cases rest with
  | nil => simp [cont1] at h
  | cons c1 t =>
    simp only [cont1] at h
    split_ifs at h with hc
    simp only [Option.some.injEq] at h
    subst h
    simp [cont1, hc]

theorem cont2_append (lo hi : Nat) (rest r ys : List Nat)
    (h : cont2 lo hi rest = some r) :
    cont2 lo hi (rest ++ ys) = some (r ++ ys) := by
  rcases rest with _ | ⟨c1, _ | ⟨c2, t⟩⟩ <;> simp only [cont2] at h
  · simp at h
  · simp at h
  · split_ifs at h with hc
    simp only [Option.some.injEq] at h
    subst h
    simp [cont2, hc]

theorem cont3_append (lo hi : Nat) (rest r ys : List Nat)
    (h : cont3 lo hi rest = some r) :
    cont3 lo hi (rest ++ ys) = some (r ++ ys) := by
  rcases rest with _ | ⟨c1, _ | ⟨c2, _ | ⟨c3, t⟩⟩⟩ <;> simp only [cont3] at h
  · simp at h
  · simp at h
  · simp at h
  · split_ifs at h with hc
    simp only [Option.some.injEq] at h
    subst h
    simp [cont3, hc]

theorem utf8Step_length (b : Nat) (rest r : List Nat)
    (h : utf8Step b rest = some r) : r.length ≤ rest.length := by
  unfold utf8Step at h
  split_ifs at h
  · simp only [Option.some.injEq] at h
    subst h
    exact Nat.le_refl _
  · exact cont1_length _ _ _ _ h
  · exact cont2_length _ _ _ _ h
  · exact cont2_length _ _ _ _ h
  · exact cont2_length _ _ _ _ h
  · exact cont3_length _ _ _ _ h
  · exact cont3_length _ _ _ _ h
  · exact cont3_length _ _ _ _ h

theorem utf8Step_append (b : Nat) (rest r ys : List Nat)
    (h : utf8Step b rest = some r) :
    utf8Step b (rest ++ ys) = some (r ++ ys) := by
  unfold utf8Step at h ⊢
  split_ifs at h ⊢
  · simp only [Option.some.injEq] at h; subst h; rfl
  · exact cont1_append _ _ _ _ _ h
  · exact cont2_append _ _ _ _ _ h
  · exact cont2_append _ _ _ _ _ h
  · exact cont2_append _ _ _ _ _ h
  · exact cont3_append _ _ _ _ _ h
  · exact cont3_append _ _ _ _ _ h
  · exact cont3_append _ _ _ _ _ h

/-- Any fuel at least the list length gives the same validation result. -/
theorem validUtf8Fuel_congr : ∀ (f1 : Nat), ∀ (f2 : Nat) (l : List Nat),
    l.length ≤ f1 → l.length ≤ f2 → validUtf8Fuel f1 l = validUtf8Fuel f2 l := by
  intro f1
  induction f1 with
  | zero =>
    intro f2 l h1 _
    rw [List.length_eq_zero.mp (Nat.le_zero.mp h1)]
    cases f2 <;> rfl
  | succ f1 ih =>
    intro f2 l h1 h2
    cases l with
    | nil => cases f2 <;> rfl
    | cons b rest =>
      cases f2 with
      | zero => simp at h2
      | succ f2 =>
        simp only [validUtf8Fuel]
        cases hstep : utf8Step b rest with
        | none => rfl
        | some r =>
          have hr := utf8Step_length b rest r hstep
          simp only [List.length_cons] at h1 h2
          exact ih f2 r (by omega) (by omega)

theorem validUtf8Fuel_append : ∀ (f : Nat) (xs ys : List Nat), xs.length ≤ f →
    validUtf8Fuel xs.length xs = true → validUtf8Fuel ys.length ys = true →
    ∀ g, xs.length + ys.length ≤ g → validUtf8Fuel g (xs ++ ys) = true := by
  intro f
  induction f with
  | zero =>
    intro xs ys h1 _ hys g hg
    rw [List.length_eq_zero.mp (Nat.le_zero.mp h1)]
    rw [List.nil_append]
    rw [validUtf8Fuel_congr g ys.length ys (by simp_all) le_rfl]
    exact hys
  | succ f ih =>
    intro xs ys h1 hxs hys g hg
    cases xs with
    | nil =>
      rw [List.nil_append]
      rw [validUtf8Fuel_congr g ys.length ys (by simp_all) le_rfl]
      exact hys
    | cons b rest =>
      simp only [List.length_cons] at h1 hg
      cases g with
      | zero => omega
      | succ g =>
        rw [List.cons_append]
        simp only [validUtf8Fuel] at hxs ⊢
        cases hstep : utf8Step b rest with
        | none => rw [hstep] at hxs; simp at hxs
        | some r =>
          simp only [hstep] at hxs
          rw [utf8Step_append b rest r ys hstep]
          have hr := utf8Step_length b rest r hstep
          have hxs' : validUtf8Fuel r.length r = true := by
            rw [validUtf8Fuel_congr rest.length r.length r (by omega) le_rfl] at hxs
            exact hxs
          exact ih r ys (by omega) hxs' hys g (by omega)

/-- UTF-8 validity is closed under concatenation. -/
theorem validUtf8_append (xs ys : List Nat) (hxs : validUtf8 xs = true)
    (hys : validUtf8 ys = true) : validUtf8 (xs ++ ys) = true := by
  unfold validUtf8 at *
  exact validUtf8Fuel_append xs.length xs ys le_rfl hxs hys
    (xs ++ ys).length (by simp)

theorem trimRevB_newline (r : List Nat) : trimRevB (10 :: r) = trimRevB r := by
  have hws : wsRevTail (10 :: r) = some r := by simp [wsRevTail]
  show trimLeftFuel wsRevTail (10 :: r).length (10 :: r) = _
  simp only [List.length_cons, trimLeftFuel, hws]
  rfl

/-- Appending the wire newline to a value and trimming gives the trimmed
value: the trailing `\n` is whitespace and is stripped first. -/
theorem trimBytes_append_newline (v : List Nat) :
    trimBytes (v ++ [10]) = trimBytes v := by
  unfold trimBytes
  rw [List.reverse_append]
  simp only [List.reverse_cons, List.reverse_nil, List.nil_append,
    List.cons_append, List.singleton_append]
  rw [trimRevB_newline]

theorem serialize_as_packet_parts (tag value : List Nat) :
    serialize_as_packet tag value =
      packet_header (6 + tag.length + value.length) ++
        (tag ++ 32 :: (value ++ [10])) := by
  simp [serialize_as_packet, HEADER_SIZE, List.append_assoc]

theorem serialize_as_packet_length (tag value : List Nat) :
    (serialize_as_packet tag value).length = 6 + tag.length + value.length := by
  rw [serialize_as_packet_parts]
  simp [packet_header]
  omega

theorem get_split_index_append (tag : List Nat) (h : ¬ 32 ∈ tag)
    (suffix : List Nat) :
    get_split_index (tag ++ 32 :: suffix) = some tag.length := by
  induction tag with
  | nil => simp [get_split_index]
  | cons b rest ih =>
    have hb : ¬ b = 32 := fun he => h (by simp [he])
    have h' : ¬ 32 ∈ rest := fun hm => h (by simp [hm])
    simp [get_split_index, hb, ih h']

/-- Parsing one well-formed packet off the front of the buffer consumes it
and appends the `(tag, value ++ newline)` pair. -/
theorem deserializePacketsFuel_step (fuel : Nat) (tag value rest : List Nat)
    (acc : List Packet) (htag_sp : ¬ 32 ∈ tag)
    (htag_utf8 : validUtf8 tag = true)
    (hsize : 6 + tag.length + value.length ≤ 65535) :
    deserializePacketsFuel (fuel + 1) (serialize_as_packet tag value ++ rest)
        acc =
      deserializePacketsFuel fuel rest (acc ++ [⟨tag, value ++ [10]⟩]) := by
  have hph_len : (packet_header (6 + tag.length + value.length)).length = 4 :=
    rfl
  have hpkt_len : (serialize_as_packet tag value).length =
      6 + tag.length + value.length := serialize_as_packet_length tag value
  have hdata : serialize_as_packet tag value ++ rest =
      packet_header (6 + tag.length + value.length) ++
        ((tag ++ 32 :: (value ++ [10])) ++ rest) := by
    rw [serialize_as_packet_parts, List.append_assoc]
  have hlen : (serialize_as_packet tag value ++ rest).length =
      6 + tag.length + value.length + rest.length := by
    rw [List.length_append, hpkt_len]
  have htake4 : (serialize_as_packet tag value ++ rest).take 4 =
      packet_header (6 + tag.length + value.length) := by
    rw [hdata]
    exact List.take_left' hph_len
  have hvalid4 : validUtf8 ((serialize_as_packet tag value ++ rest).take 4) =
      true := by
    rw [htake4]
    exact validUtf8_of_ascii _ (packet_header_ascii _)
  have hhex : from_str_radix16 ((serialize_as_packet tag value ++ rest).take 4)
      = some (6 + tag.length + value.length) := by
    rw [htake4]
    exact from_str_radix16_header _ hsize
  have htakesize : (serialize_as_packet tag value ++ rest).take
      (6 + tag.length + value.length) = serialize_as_packet tag value :=
    List.take_left' hpkt_len
  have hbody : ((serialize_as_packet tag value ++ rest).take
      (6 + tag.length + value.length)).drop 4 = tag ++ 32 :: (value ++ [10]) := by
    rw [htakesize, serialize_as_packet_parts]
    exact List.drop_left' hph_len
  have hsplit : get_split_index (tag ++ 32 :: (value ++ [10])) =
      some tag.length := get_split_index_append tag htag_sp _
  have hkey : (tag ++ 32 :: (value ++ [10])).take tag.length = tag :=
    List.take_left tag _
  have hval : ((tag ++ 32 :: (value ++ [10])).drop tag.length).drop 1 =
      value ++ [10] := by
    rw [List.drop_left]
    rfl
  have hdrop : (serialize_as_packet tag value ++ rest).drop
      (6 + tag.length + value.length) = rest := List.drop_left' hpkt_len
  obtain ⟨b, l, hbl⟩ : ∃ b l, serialize_as_packet tag value ++ rest = b :: l := by
    cases hc : serialize_as_packet tag value ++ rest with
    | nil => rw [hc] at hlen; simp at hlen; omega
    | cons b l => exact ⟨b, l, rfl⟩
  rw [hbl] at hlen htake4 hvalid4 hhex htakesize hbody hdrop ⊢
  have hg1 : ¬ (b :: l).length < 4 := by rw [hlen]; omega
  have hg4 : ¬ (6 + tag.length + value.length < 4 ∨
      (b :: l).length < 6 + tag.length + value.length) := by
    rw [hlen]; omega
  simp only [deserializePacketsFuel, hg1, if_false, hvalid4, not_true,
    Bool.not_eq_true, hhex, hg4, hbody, hsplit, hkey, htag_utf8, hval, hdrop,
    ite_false, ite_true]

/-- Byte stream of a list of `(tag, value)` packets. -/
def packetStream (pairs : List (List Nat × List Nat)) : List Nat :=
  (pairs.map fun pr => serialize_as_packet pr.1 pr.2).flatten

theorem packetStream_length (pairs : List (List Nat × List Nat)) :
    pairs.length ≤ (packetStream pairs).length := by
  induction pairs with
  | nil => simp [packetStream]
  | cons pr rest ih =>
    simp only [packetStream, List.map_cons, List.flatten_cons,
      List.length_append, List.length_cons, serialize_as_packet_length]
    simp only [packetStream] at ih
    omega

/-- Parsing a stream of well-formed packets returns exactly their
`(tag, value ++ newline)` pairs, in order. -/
theorem deserializePacketsFuel_stream :
    ∀ (pairs : List (List Nat × List Nat)) (fuel : Nat) (acc : List Packet),
    (∀ pr ∈ pairs, ¬ 32 ∈ pr.1 ∧ validUtf8 pr.1 = true ∧
      6 + pr.1.length + pr.2.length ≤ 65535) →
    pairs.length ≤ fuel →
    deserializePacketsFuel fuel (packetStream pairs) acc =
      .ok (acc ++ pairs.map fun pr => ⟨pr.1, pr.2 ++ [10]⟩) := by
  intro pairs
  induction pairs with
  | nil =>
    intro fuel acc _ _
    cases fuel <;> simp [packetStream, deserializePacketsFuel]
  | cons pr rest ih =>
    intro fuel acc hcond hlen
    cases fuel with
    | zero => simp at hlen
    | succ f =>
      obtain ⟨h1, h2, h3⟩ := hcond pr (by simp)
      have hstream : packetStream (pr :: rest) =
          serialize_as_packet pr.1 pr.2 ++ packetStream rest := by
        simp [packetStream]
      rw [hstream]
      rw [deserializePacketsFuel_step f pr.1 pr.2 (packetStream rest) acc
        h1 h2 h3]
      have hih := ih f (acc ++ [⟨pr.1, pr.2 ++ [10]⟩])
        (fun q hq => hcond q (by simp [hq]))
        (by simp only [List.length_cons] at hlen; omega)
      rw [hih]
      simp

theorem deserialize_as_packets_stream (pairs : List (List Nat × List Nat))
    (hcond : ∀ pr ∈ pairs, ¬ 32 ∈ pr.1 ∧ validUtf8 pr.1 = true ∧
      6 + pr.1.length + pr.2.length ≤ 65535) :
    deserialize_as_packets (packetStream pairs) [] =
      .ok (pairs.map fun pr => ⟨pr.1, pr.2 ++ [10]⟩) := by
  unfold deserialize_as_packets
  rw [deserializePacketsFuel_stream pairs _ [] hcond
    (by have := packetStream_length pairs; omega)]
  simp

theorem tag_facts_location : ¬ 32 ∈ LOCATION ∧ validUtf8 LOCATION = true ∧
    (∀ b ∈ LOCATION, b < 256) ∧ LOCATION.length = 8 := by decide

theorem tag_facts_identifier : ¬ 32 ∈ IDENTIFIER ∧ validUtf8 IDENTIFIER = true ∧
    (∀ b ∈ IDENTIFIER, b < 256) ∧ IDENTIFIER.length = 10 := by decide

theorem tag_facts_signature : ¬ 32 ∈ SIGNATURE ∧ validUtf8 SIGNATURE = true ∧
    (∀ b ∈ SIGNATURE, b < 256) ∧ SIGNATURE.length = 9 := by decide

theorem tag_facts_cid : ¬ 32 ∈ CID ∧ validUtf8 CID = true ∧
    (∀ b ∈ CID, b < 256) ∧ CID.length = 3 := by decide

theorem tag_facts_vid : ¬ 32 ∈ VID ∧ validUtf8 VID = true ∧
    (∀ b ∈ VID, b < 256) ∧ VID.length = 3 := by decide

theorem tag_facts_cl : ¬ 32 ∈ CL ∧ validUtf8 CL = true ∧
    (∀ b ∈ CL, b < 256) ∧ CL.length = 2 := by decide

theorem processPacket_location (m : Macaroon) (c : Caveat) (v : List Nat)
    (hv : validUtf8 v = true) :
    processPacket m c ⟨LOCATION, v⟩ =
      .ok ({ m with location := trimBytes v }, c) := by
  simp [processPacket, try_utf8, hv]

theorem processPacket_identifier (m : Macaroon) (c : Caveat) (v : List Nat)
    (hv : validUtf8 v = true) :
    processPacket m c ⟨IDENTIFIER, v⟩ =
      .ok ({ m with identifier := trimBytes v }, c) := by
  have hne : ¬ (IDENTIFIER = LOCATION) := by decide
  simp [processPacket, try_utf8, hv, hne]

theorem processPacket_signature_plain (m : Macaroon) (c : Caveat)
    (v : List Nat) (hc : c.id = []) (hlen : ¬ v.length < 32) :
    processPacket m c ⟨SIGNATURE, v⟩ =
      .ok ({ m with signature := v.take 32 }, c) := by
  have hne1 : ¬ (SIGNATURE = LOCATION) := by decide
  have hne2 : ¬ (SIGNATURE = IDENTIFIER) := by decide
  simp [processPacket, hne1, hne2, hc, hlen]

theorem processPacket_signature_flush (m : Macaroon) (c : Caveat)
    (v : List Nat) (hc : ¬ c.id = []) (hlen : ¬ v.length < 32) :
    processPacket m c ⟨SIGNATURE, v⟩ =
      .ok ({ m with caveats := m.caveats ++ [c], signature := v.take 32 },
        defaultCaveat) := by
  have hne1 : ¬ (SIGNATURE = LOCATION) := by decide
  have hne2 : ¬ (SIGNATURE = IDENTIFIER) := by decide
  simp [processPacket, hne1, hne2, hc, hlen]

theorem processPacket_cid_new (m : Macaroon) (c : Caveat) (v : List Nat)
    (hc : c.id = []) (hv : validUtf8 v = true) :
    processPacket m c ⟨CID, v⟩ = .ok (m, { c with id := trimBytes v }) := by
  have hne1 : ¬ (CID = LOCATION) := by decide
  have hne2 : ¬ (CID = IDENTIFIER) := by decide
  have hne3 : ¬ (CID = SIGNATURE) := by decide
  simp [processPacket, try_utf8, hne1, hne2, hne3, hc, hv]

theorem processPacket_vid (m : Macaroon) (c : Caveat) (v : List Nat)
    (hv : validUtf8 v = true) :
    processPacket m c ⟨VID, v⟩ =
      .ok (m, { c with verifier_id := some (trimBytes v) }) := by
  have hne1 : ¬ (VID = LOCATION) := by decide
  have hne2 : ¬ (VID = IDENTIFIER) := by decide
  have hne3 : ¬ (VID = SIGNATURE) := by decide
  have hne4 : ¬ (VID = CID) := by decide
  simp [processPacket, try_utf8, hne1, hne2, hne3, hne4, hv]

theorem processPacket_cl (m : Macaroon) (c : Caveat) (v : List Nat)
    (hv : validUtf8 v = true) :
    processPacket m c ⟨CL, v⟩ =
      .ok (m, { c with location := some (trimBytes v) }) := by
  have hne1 : ¬ (CL = LOCATION) := by decide
  have hne2 : ¬ (CL = IDENTIFIER) := by decide
  have hne3 : ¬ (CL = SIGNATURE) := by decide
  have hne4 : ¬ (CL = CID) := by decide
  have hne5 : ¬ (CL = VID) := by decide
  simp [processPacket, try_utf8, hne1, hne2, hne3, hne4, hne5, hv]

/-- The `(tag, value)` pairs a caveat contributes to the V1 stream. -/
def caveatPairs (c : Caveat) : List (List Nat × List Nat) :=
  (CID, c.id) ::
    ((match c.verifier_id with | some v => [(VID, v)] | none => []) ++
     (match c.location with | some l => [(CL, l)] | none => []))

/-- The `(tag, value)` pairs of the whole V1 stream of a token. -/
def v1Pairs (m : Macaroon) : List (List Nat × List Nat) :=
  (LOCATION, m.location) :: (IDENTIFIER, m.identifier) ::
    ((m.caveats.map caveatPairs).flatten ++ [(SIGNATURE, m.signature)])

theorem packetStream_append (a b : List (List Nat × List Nat)) :
    packetStream (a ++ b) = packetStream a ++ packetStream b := by
  simp [packetStream]

theorem packetStream_caveatPairs (c : Caveat) :
    packetStream (caveatPairs c) = serializeCaveat c := by
  unfold packetStream caveatPairs serializeCaveat
  cases c.verifier_id <;> cases c.location <;> simp

theorem packetStream_caveats (cs : List Caveat) :
    packetStream ((cs.map caveatPairs).flatten) =
      (cs.map serializeCaveat).flatten := by
  induction cs with
  | nil => rfl
  | cons c rest ih =>
    simp only [List.map_cons, List.flatten_cons, packetStream_append,
      packetStream_caveatPairs, ih]

/-- `serialize_v1` produces exactly the base64 of the packet stream of
`v1Pairs`. -/
theorem serialize_v1_eq (m : Macaroon) :
    serialize_v1 m = .ok (to_base64 (packetStream (v1Pairs m))) := by
  unfold serialize_v1 v1Pairs
  congr 2
  rw [show ((LOCATION, m.location) :: (IDENTIFIER, m.identifier) ::
      ((m.caveats.map caveatPairs).flatten ++ [(SIGNATURE, m.signature)])) =
      [(LOCATION, m.location)] ++ [(IDENTIFIER, m.identifier)] ++
      ((m.caveats.map caveatPairs).flatten ++ [(SIGNATURE, m.signature)])
      by simp]
  rw [packetStream_append, packetStream_append, packetStream_append,
    packetStream_caveats]
  simp [packetStream, List.append_assoc]

/-- Well-formedness of a text field for the amended round-trip law: valid
UTF-8, invariant under `str::trim` (no leading or trailing whitespace), and
byte-valued entries. -/
def wfText (v : List Nat) : Bool :=
  validUtf8 v && (trimBytes v == v) && v.all (fun b => decide (b < 256))

/-- Well-formedness of one caveat for the amended round-trip law: non-empty
id, well-formed text fields, and each field small enough that its packet
stays within the 4-hex-digit length header. -/
def wfCaveat (c : Caveat) : Bool :=
  (!(c.id == [])) && wfText c.id && decide (c.id.length ≤ 65526) &&
  (match c.verifier_id with
   | some v => wfText v && decide (v.length ≤ 65526)
   | none => true) &&
  (match c.location with
   | some l => wfText l && decide (l.length ≤ 65527)
   | none => true)

/-- Well-formedness of a token for the amended V1 round-trip law: well-formed
bounded text fields, a signature of exactly 32 bytes, and at most one caveat
(the `cid`-after-`cid` branch of `deserialize_v1` discards the second
caveat's id, so streams with two or more caveats do not round-trip). -/
def wfTokenV1 (m : Macaroon) : Bool :=
  wfText m.location && decide (m.location.length ≤ 65521) &&
  wfText m.identifier && decide (m.identifier.length ≤ 65519) &&
  decide (m.signature.length = 32) &&
  m.signature.all (fun b => decide (b < 256)) &&
  decide (m.caveats.length ≤ 1) && m.caveats.all wfCaveat

theorem wfText_parts (v : List Nat) (h : wfText v = true) :
    validUtf8 v = true ∧ trimBytes v = v ∧ ∀ b ∈ v, b < 256 := by
  simp only [wfText, Bool.and_eq_true, beq_iff_eq, List.all_eq_true,
    decide_eq_true_eq] at h
  exact ⟨h.1.1, h.1.2, h.2⟩

theorem serialize_as_packet_lt (tag value : List Nat)
    (htag : ∀ b ∈ tag, b < 256) (hv : ∀ b ∈ value, b < 256) :
    ∀ b ∈ serialize_as_packet tag value, b < 256 := by
  intro b hb
  rw [serialize_as_packet_parts] at hb
  simp only [List.mem_append, List.mem_cons] at hb
  rcases hb with h | h | h | h
  · have := packet_header_ascii (6 + tag.length + value.length) b h
    omega
  · exact htag b h
  · omega
  · rcases h with h' | h' | h'
    · exact hv b h'
    · omega
    · simp at h'

theorem packetStream_lt (pairs : List (List Nat × List Nat))
    (h : ∀ pr ∈ pairs, (∀ b ∈ pr.1, b < 256) ∧ (∀ b ∈ pr.2, b < 256)) :
    ∀ b ∈ packetStream pairs, b < 256 := by
  induction pairs with
  | nil => simp [packetStream]
  | cons pr rest ih =>
    intro b hb
    rw [show packetStream (pr :: rest) =
        serialize_as_packet pr.1 pr.2 ++ packetStream rest by
      simp [packetStream]] at hb
    rcases List.mem_append.mp hb with h' | h'
    · obtain ⟨h1, h2⟩ := h pr (by simp)
      exact serialize_as_packet_lt pr.1 pr.2 h1 h2 b h'
    · exact ih (fun q hq => h q (by simp [hq])) b h'

theorem foldPackets_cons_ok (p : Packet) (rest : List Packet) (m : Macaroon)
    (c : Caveat) (m' : Macaroon) (c' : Caveat)
    (h : processPacket m c p = .ok (m', c')) :
    foldPackets (p :: rest) m c = foldPackets rest m' c' := by
  simp [foldPackets, h]

theorem wfTokenV1_parts (m : Macaroon) (h : wfTokenV1 m = true) :
    wfText m.location = true ∧ m.location.length ≤ 65521 ∧
    wfText m.identifier = true ∧ m.identifier.length ≤ 65519 ∧
    m.signature.length = 32 ∧ (∀ b ∈ m.signature, b < 256) ∧
    m.caveats.length ≤ 1 ∧ ∀ c ∈ m.caveats, wfCaveat c = true := by
  simp only [wfTokenV1, Bool.and_eq_true, decide_eq_true_eq,
    List.all_eq_true] at h
  tauto

theorem wfCaveat_parts (c : Caveat) (h : wfCaveat c = true) :
    ¬ c.id = [] ∧ wfText c.id = true ∧ c.id.length ≤ 65526 ∧
    (∀ v, c.verifier_id = some v → wfText v = true ∧ v.length ≤ 65526) ∧
    (∀ l, c.location = some l → wfText l = true ∧ l.length ≤ 65527) := by
  have hsplit : (¬ c.id = []) ∧ wfText c.id = true ∧ c.id.length ≤ 65526 := by
    cases hv : c.verifier_id <;> cases hl : c.location <;>
      simp only [wfCaveat, hv, hl, Bool.and_eq_true, Bool.not_eq_true',
        beq_eq_false_iff_ne, ne_eq, decide_eq_true_eq] at h <;> tauto
  refine ⟨hsplit.1, hsplit.2.1, hsplit.2.2, ?_, ?_⟩
  · intro v hv
    cases hl : c.location <;>
      simp only [wfCaveat, hv, hl, Bool.and_eq_true, Bool.not_eq_true',
        beq_eq_false_iff_ne, ne_eq, decide_eq_true_eq] at h <;> tauto
  · intro l hl
    cases hv : c.verifier_id <;>
      simp only [wfCaveat, hv, hl, Bool.and_eq_true, Bool.not_eq_true',
        beq_eq_false_iff_ne, ne_eq, decide_eq_true_eq] at h <;> tauto

/-- Every pair in the V1 stream of a well-formed token satisfies the packet
framing conditions and carries only byte values. -/
theorem v1Pairs_cond (m : Macaroon) (hwf : wfTokenV1 m = true) :
    ∀ pr ∈ v1Pairs m, (¬ 32 ∈ pr.1 ∧ validUtf8 pr.1 = true ∧
      6 + pr.1.length + pr.2.length ≤ 65535) ∧
      ((∀ b ∈ pr.1, b < 256) ∧ (∀ b ∈ pr.2, b < 256)) := by
  obtain ⟨hloc, hloclen, hid, hidlen, hsiglen, hsigb, _, hcav⟩ :=
    wfTokenV1_parts m hwf
  obtain ⟨hlocv, _, hlocb⟩ := wfText_parts _ hloc
  obtain ⟨hidv, _, hidb⟩ := wfText_parts _ hid
  intro pr hpr
  simp only [v1Pairs, List.mem_cons, List.mem_append,
    List.mem_singleton, List.not_mem_nil, or_false] at hpr
  rcases hpr with rfl | rfl | hpr | rfl
  · obtain ⟨t1, t2, t3, t4⟩ := tag_facts_location
    refine ⟨⟨t1, t2, ?_⟩, t3, hlocb⟩
    show 6 + LOCATION.length + m.location.length ≤ 65535
    rw [t4]; omega
  · obtain ⟨t1, t2, t3, t4⟩ := tag_facts_identifier
    refine ⟨⟨t1, t2, ?_⟩, t3, hidb⟩
    show 6 + IDENTIFIER.length + m.identifier.length ≤ 65535
    rw [t4]; omega
  · obtain ⟨l, hl, hprl⟩ := List.mem_flatten.mp hpr
    obtain ⟨c, hc, rfl⟩ := List.mem_map.mp hl
    obtain ⟨_, hcid, hcidlen, hcvid, hccl⟩ := wfCaveat_parts c (hcav c hc)
    obtain ⟨hcidv, _, hcidb⟩ := wfText_parts _ hcid
    simp only [caveatPairs, List.mem_cons, List.mem_append] at hprl
    rcases hprl with rfl | hprl | hprl
    · obtain ⟨t1, t2, t3, t4⟩ := tag_facts_cid
      refine ⟨⟨t1, t2, ?_⟩, t3, hcidb⟩
      show 6 + CID.length + c.id.length ≤ 65535
      rw [t4]; omega
    · cases hv : c.verifier_id with
      | none => rw [hv] at hprl; simp at hprl
      | some v =>
        rw [hv] at hprl
        simp only [List.mem_singleton] at hprl
        subst hprl
        obtain ⟨hvt, hvlen⟩ := hcvid v hv
        obtain ⟨hvv, _, hvb⟩ := wfText_parts _ hvt
        obtain ⟨t1, t2, t3, t4⟩ := tag_facts_vid
        refine ⟨⟨t1, t2, ?_⟩, t3, hvb⟩
        show 6 + VID.length + v.length ≤ 65535
        rw [t4]; omega
    · cases hl' : c.location with
      | none => rw [hl'] at hprl; simp at hprl
      | some l' =>
        rw [hl'] at hprl
        simp only [List.mem_singleton] at hprl
        subst hprl
        obtain ⟨hlt, hllen⟩ := hccl l' hl'
        obtain ⟨hlv, _, hlb⟩ := wfText_parts _ hlt
        obtain ⟨t1, t2, t3, t4⟩ := tag_facts_cl
        refine ⟨⟨t1, t2, ?_⟩, t3, hlb⟩
        show 6 + CL.length + l'.length ≤ 65535
        rw [t4]; omega
  · obtain ⟨t1, t2, t3, t4⟩ := tag_facts_signature
    refine ⟨⟨t1, t2, ?_⟩, t3, hsigb⟩
    show 6 + SIGNATURE.length + m.signature.length ≤ 65535
    rw [t4]; omega

/-- C2 (amended): serializing then deserializing under V1 is the identity on
tokens with a 32-byte signature, at most one caveat with non-empty id, and
whitespace-trim-invariant valid-UTF-8 bounded text fields. -/
theorem v1_roundtrip_wf (m : Macaroon) (s : List Nat)
    (hwf : wfTokenV1 m = true) (hser : serialize_v1 m = .ok s) :
    deserialize_v1 s = .ok m := by
  rw [serialize_v1_eq] at hser
  have hs : s = to_base64 (packetStream (v1Pairs m)) := by
    injection hser with h
    exact h.symm
  subst hs
  have hcond := v1Pairs_cond m hwf
  have hb64 : base64_decode (to_base64 (packetStream (v1Pairs m))) =
      .ok (packetStream (v1Pairs m)) :=
    base64_decode_to_base64 _ (packetStream_lt _ fun pr hpr => (hcond pr hpr).2)
  have hparse : deserialize_as_packets (packetStream (v1Pairs m)) [] =
      .ok ((v1Pairs m).map fun pr => ⟨pr.1, pr.2 ++ [10]⟩) :=
    deserialize_as_packets_stream _ fun pr hpr => (hcond pr hpr).1
  obtain ⟨hloc, hloclen, hid, hidlen, hsiglen, hsigb, hcavlen, hcav⟩ :=
    wfTokenV1_parts m hwf
  obtain ⟨hlocv, hloct, hlocb⟩ := wfText_parts _ hloc
  obtain ⟨hidv, hidt, hidb⟩ := wfText_parts _ hid
  have hnl : validUtf8 [10] = true := by decide
  have hvloc : validUtf8 (m.location ++ [10]) = true :=
    validUtf8_append _ _ hlocv hnl
  have hvident : validUtf8 (m.identifier ++ [10]) = true :=
    validUtf8_append _ _ hidv hnl
  have htrloc : trimBytes (m.location ++ [10]) = m.location := by
    rw [trimBytes_append_newline]
    exact hloct
  have htrid : trimBytes (m.identifier ++ [10]) = m.identifier := by
    rw [trimBytes_append_newline]
    exact hidt
  have hslen : ¬ (m.signature ++ [10]).length < 32 := by
    simp [hsiglen]
  have hstake : (m.signature ++ [10]).take 32 = m.signature :=
    List.take_left' hsiglen
  unfold deserialize_v1
  simp only [hb64, hparse]
  obtain ⟨loc, ident, cavs, sig⟩ := m
  simp only at hvloc hvident htrloc htrid hslen hstake hcavlen hcav hsiglen
  rcases cavs with _ | ⟨c, _ | ⟨c2, crest⟩⟩
  · simp only [v1Pairs, List.map_nil, List.flatten_nil, List.nil_append,
      List.map_cons]
    rw [foldPackets_cons_ok _ _ _ _ _ _ (processPacket_location _ _ _ hvloc)]
    rw [foldPackets_cons_ok _ _ _ _ _ _ (processPacket_identifier _ _ _ hvident)]
    rw [foldPackets_cons_ok _ _ _ _ _ _
      (processPacket_signature_plain _ _ _ rfl hslen)]
    simp only [foldPackets, htrloc, htrid, hstake, defaultMacaroon]
  · obtain ⟨hcidne, hcid, hcidlen, hcvid, hccl⟩ :=
      wfCaveat_parts c (hcav c (by simp))
    obtain ⟨hcidv, hcidt, hcidb⟩ := wfText_parts _ hcid
    have hvcid : validUtf8 (c.id ++ [10]) = true := validUtf8_append _ _ hcidv hnl
    have htrcid : trimBytes (c.id ++ [10]) = c.id := by
      rw [trimBytes_append_newline]
      exact hcidt
    have hflushid : ¬ trimBytes (c.id ++ [10]) = [] := by
      rw [htrcid]
      exact hcidne
    obtain ⟨cid, cvid, ccl⟩ := c
    simp only at hvcid htrcid hflushid hcvid hccl
    rcases cvid with _ | v <;> rcases ccl with _ | l
    · simp only [v1Pairs, caveatPairs, List.map_cons, List.map_nil,
        List.flatten_cons, List.flatten_nil, List.nil_append,
        List.append_nil, List.singleton_append, List.cons_append]
      rw [foldPackets_cons_ok _ _ _ _ _ _ (processPacket_location _ _ _ hvloc)]
      rw [foldPackets_cons_ok _ _ _ _ _ _
        (processPacket_identifier _ _ _ hvident)]
      rw [foldPackets_cons_ok _ _ _ _ _ _
        (processPacket_cid_new _ _ _ rfl hvcid)]
      rw [foldPackets_cons_ok _ _ _ _ _ _
        (processPacket_signature_flush _ _ _ hflushid hslen)]
      simp only [foldPackets, htrloc, htrid, htrcid, hstake, defaultMacaroon,
        defaultCaveat, List.nil_append]
    · obtain ⟨hlt, hllen⟩ := hccl l rfl
      obtain ⟨hlv, hltr, hlb⟩ := wfText_parts _ hlt
      have hvl : validUtf8 (l ++ [10]) = true := validUtf8_append _ _ hlv hnl
      have htrl : trimBytes (l ++ [10]) = l := by
        rw [trimBytes_append_newline]
        exact hltr
      simp only [v1Pairs, caveatPairs, List.map_cons, List.map_nil,
        List.flatten_cons, List.flatten_nil, List.nil_append,
        List.append_nil, List.singleton_append, List.cons_append]
      rw [foldPackets_cons_ok _ _ _ _ _ _ (processPacket_location _ _ _ hvloc)]
      rw [foldPackets_cons_ok _ _ _ _ _ _
        (processPacket_identifier _ _ _ hvident)]
      rw [foldPackets_cons_ok _ _ _ _ _ _
        (processPacket_cid_new _ _ _ rfl hvcid)]
      rw [foldPackets_cons_ok _ _ _ _ _ _ (processPacket_cl _ _ _ hvl)]
      rw [foldPackets_cons_ok _ _ _ _ _ _
        (processPacket_signature_flush _ _ _ hflushid hslen)]
      simp only [foldPackets, htrloc, htrid, htrcid, htrl, hstake,
        defaultMacaroon, defaultCaveat, List.nil_append]
    · obtain ⟨hvt, hvlen⟩ := hcvid v rfl
      obtain ⟨hvv, hvtr, hvb⟩ := wfText_parts _ hvt
      have hvv10 : validUtf8 (v ++ [10]) = true := validUtf8_append _ _ hvv hnl
      have htrv : trimBytes (v ++ [10]) = v := by
        rw [trimBytes_append_newline]
        exact hvtr
      simp only [v1Pairs, caveatPairs, List.map_cons, List.map_nil,
        List.flatten_cons, List.flatten_nil, List.nil_append,
        List.append_nil, List.singleton_append, List.cons_append]
      rw [foldPackets_cons_ok _ _ _ _ _ _ (processPacket_location _ _ _ hvloc)]
      rw [foldPackets_cons_ok _ _ _ _ _ _
        (processPacket_identifier _ _ _ hvident)]
      rw [foldPackets_cons_ok _ _ _ _ _ _
        (processPacket_cid_new _ _ _ rfl hvcid)]
      rw [foldPackets_cons_ok _ _ _ _ _ _ (processPacket_vid _ _ _ hvv10)]
      rw [foldPackets_cons_ok _ _ _ _ _ _
        (processPacket_signature_flush _ _ _ hflushid hslen)]
      simp only [foldPackets, htrloc, htrid, htrcid, htrv, hstake,
        defaultMacaroon, defaultCaveat, List.nil_append]
    · obtain ⟨hvt, hvlen⟩ := hcvid v rfl
      obtain ⟨hvv, hvtr, hvb⟩ := wfText_parts _ hvt
      have hvv10 : validUtf8 (v ++ [10]) = true := validUtf8_append _ _ hvv hnl
      have htrv : trimBytes (v ++ [10]) = v := by
        rw [trimBytes_append_newline]
        exact hvtr
      obtain ⟨hlt, hllen⟩ := hccl l rfl
      obtain ⟨hlv, hltr, hlb⟩ := wfText_parts _ hlt
      have hvl : validUtf8 (l ++ [10]) = true := validUtf8_append _ _ hlv hnl
      have htrl : trimBytes (l ++ [10]) = l := by
        rw [trimBytes_append_newline]
        exact hltr
      simp only [v1Pairs, caveatPairs, List.map_cons, List.map_nil,
        List.flatten_cons, List.flatten_nil, List.nil_append,
        List.append_nil, List.singleton_append, List.cons_append]
      rw [foldPackets_cons_ok _ _ _ _ _ _ (processPacket_location _ _ _ hvloc)]
      rw [foldPackets_cons_ok _ _ _ _ _ _
        (processPacket_identifier _ _ _ hvident)]
      rw [foldPackets_cons_ok _ _ _ _ _ _
        (processPacket_cid_new _ _ _ rfl hvcid)]
      rw [foldPackets_cons_ok _ _ _ _ _ _ (processPacket_vid _ _ _ hvv10)]
      rw [foldPackets_cons_ok _ _ _ _ _ _ (processPacket_cl _ _ _ hvl)]
      rw [foldPackets_cons_ok _ _ _ _ _ _
        (processPacket_signature_flush _ _ _ hflushid hslen)]
      simp only [foldPackets, htrloc, htrid, htrcid, htrv, htrl, hstake,
        defaultMacaroon, defaultCaveat, List.nil_append]
  · exfalso
    simp only [List.length_cons] at hcavlen
    omega

/-- Is the outcome a success? -/
def RResult.isOk {ε α : Type} : RResult ε α → Bool
  | .ok _ => true
  | _ => false

theorem processPacket_sig_preserve (m : Macaroon) (c : Caveat) (p : Packet)
    (m' : Macaroon) (c' : Caveat) (h : processPacket m c p = .ok (m', c')) :
    m'.signature = m.signature ∨ m'.signature.length = 32 := by
  unfold processPacket at h
  split_ifs at h <;>
  first
    | exact RResult.noConfusion h
    | (simp only [RResult.ok.injEq, Prod.mk.injEq] at h
       first
         | (right
            rw [← h.1]
            simp only [List.length_take]
            omega)
         | (left
            rw [← h.1]))
    | (cases hu : try_utf8 p.value with
       | ok s =>
         simp only [hu, RResult.ok.injEq, Prod.mk.injEq] at h
         left
         rw [← h.1]
       | err e => simp only [hu] at h; exact RResult.noConfusion h
       | crash => simp only [hu] at h; exact RResult.noConfusion h)

theorem processPacket_sig_key (m : Macaroon) (c : Caveat) (p : Packet)
    (m' : Macaroon) (c' : Caveat) (hkey : p.key = SIGNATURE)
    (h : processPacket m c p = .ok (m', c')) : m'.signature.length = 32 := by
  obtain ⟨k, v⟩ := p
  simp only at hkey
  subst hkey
  have hne1 : ¬ ((SIGNATURE : List Nat) = LOCATION) := by decide
  have hne2 : ¬ ((SIGNATURE : List Nat) = IDENTIFIER) := by decide
  by_cases hlen : v.length < 32
  · have hcr : processPacket m c ⟨SIGNATURE, v⟩ = .crash := by
      simp [processPacket, hne1, hne2, hlen]
    rw [hcr] at h
    exact RResult.noConfusion h
  · by_cases hflush : c.id = []
    · rw [processPacket_signature_plain m c v hflush hlen] at h
      simp only [RResult.ok.injEq, Prod.mk.injEq] at h
      rw [← h.1]
      simp only [List.length_take]
      omega
    · rw [processPacket_signature_flush m c v hflush hlen] at h
      simp only [RResult.ok.injEq, Prod.mk.injEq] at h
      rw [← h.1]
      simp only [List.length_take]
      omega

theorem foldPackets_sig_preserve : ∀ (ps : List Packet) (m : Macaroon)
    (c : Caveat) (m' : Macaroon) (c' : Caveat), m.signature.length = 32 →
    foldPackets ps m c = .ok (m', c') → m'.signature.length = 32 := by
  intro ps
  induction ps with
  | nil =>
    intro m c m' c' hlen h
    simp only [foldPackets, RResult.ok.injEq, Prod.mk.injEq] at h
    rw [← h.1]
    exact hlen
  | cons p rest ih =>
    intro m c m' c' hlen h
    simp only [foldPackets] at h
    cases hp : processPacket m c p with
    | ok mc =>
      obtain ⟨m1, c1⟩ := mc
      simp only [hp] at h
      rcases processPacket_sig_preserve m c p m1 c1 hp with he | he
      · exact ih m1 c1 m' c' (by rw [he]; exact hlen) h
      · exact ih m1 c1 m' c' he h
    | err e => simp only [hp] at h; exact RResult.noConfusion h
    | crash => simp only [hp] at h; exact RResult.noConfusion h

theorem foldPackets_sig_present : ∀ (ps : List Packet) (m : Macaroon)
    (c : Caveat) (m' : Macaroon) (c' : Caveat),
    (∃ p ∈ ps, p.key = SIGNATURE) →
    foldPackets ps m c = .ok (m', c') → m'.signature.length = 32 := by
  intro ps
  induction ps with
  | nil =>
    intro m c m' c' hex _
    obtain ⟨p, hp, _⟩ := hex
    simp at hp
  | cons p rest ih =>
    intro m c m' c' hex h
    simp only [foldPackets] at h
    cases hp : processPacket m c p with
    | ok mc =>
      obtain ⟨m1, c1⟩ := mc
      simp only [hp] at h
      by_cases hkey : p.key = SIGNATURE
      · exact foldPackets_sig_preserve rest m1 c1 m' c'
          (processPacket_sig_key m c p m1 c1 hkey hp) h
      · obtain ⟨q, hq, hqkey⟩ := hex
        rcases List.mem_cons.mp hq with rfl | hq'
        · exact absurd hqkey hkey
        · exact ih m1 c1 m' c' ⟨q, hq', hqkey⟩ h
    | err e => simp only [hp] at h; exact RResult.noConfusion h
    | crash => simp only [hp] at h; exact RResult.noConfusion h

def SERIALIZED_V1 : List Nat := ascii "MDAyMWxvY2F0aW9uIGh0dHA6Ly9leGFtcGxlLm9yZy8KMDAxNWlkZW50aWZpZXIga2V5aWQKMDAyZnNpZ25hdHVyZSB83ueSURxbxvUoSFgF3-myTnheKOKpkwH51xHGCeOO9wo"

def SIGNATURE_V1 : List Nat :=
  [124, 222, 231, 146, 81, 28, 91, 198, 245, 40, 72, 88, 5, 223, 233, 178,
   78, 120, 94, 40, 226, 169, 147, 1, 249, 215, 17, 198, 9, 227, 142, 247]

/-- The packet stream of C1's scenario: `cid=a, vid=v, cl=l, cid=b, cid=c,
signature=S` with a 32-byte `S`, base64-encoded for `deserialize_v1`. -/
def c1Input : List Nat := to_base64 (
  serialize_as_packet CID [97] ++ serialize_as_packet VID [118] ++
  serialize_as_packet CL [108] ++ serialize_as_packet CID [98] ++
  serialize_as_packet CID [99] ++
  serialize_as_packet SIGNATURE (List.replicate 32 1))

/-- C1: evaluating `deserialize_v1` on the stream `cid=a, vid=v, cl=l, cid=b,
cid=c, signature=S` produces only the two caveats `{a,v,l}` and `{c,-,-}` —
the `cid` arm's else-branch pushes the finished caveat but discards the new
packet's value, so caveat `b` is silently lost, contradicting the claimed
`[{A,V1,L1}, {B,None,None}, {C,None,None}]`. -/
theorem c1_cid_after_cid_drops_value :
    deserialize_v1 c1Input =
      .ok ⟨[], [], [⟨[97], some [118], some [108]⟩, ⟨[99], none, none⟩],
        List.replicate 32 1⟩ := by
  decide

def c2CexToken : Macaroon := ⟨[32], [], [], List.replicate 32 0⟩

def c2CexResult : Macaroon := ⟨[], [], [], List.replicate 32 0⟩

/-- C2 counterexample: the token whose location is the single space character
has a 32-byte signature and (vacuously) only non-empty caveat ids, yet
serializing and deserializing it returns a token whose location was trimmed
to empty — not equal to the original. -/
theorem c2_roundtrip_counterexample :
    c2CexToken.signature.length = 32 ∧ c2CexToken.caveats = [] ∧
    serialize_v1 c2CexToken =
      .ok (to_base64 (packetStream (v1Pairs c2CexToken))) ∧
    deserialize_v1 (to_base64 (packetStream (v1Pairs c2CexToken))) =
      .ok c2CexResult ∧
    ¬ (c2CexResult = c2CexToken) := by
  decide

def c2WitnessToken : Macaroon :=
  ⟨[104], [105], [⟨[97], some [118], none⟩], List.replicate 32 7⟩

/-- Witness for the amended C2: a concrete well-formed one-caveat token
round-trips exactly. -/
theorem v1_roundtrip_wf_witness :
    wfTokenV1 c2WitnessToken = true ∧
    deserialize_v1 (to_base64 (packetStream (v1Pairs c2WitnessToken))) =
      .ok c2WitnessToken :=
  ⟨by decide,
   v1_roundtrip_wf c2WitnessToken _ (by decide) (serialize_v1_eq c2WitnessToken)⟩

/-- C3 counterexample: the base64 text `MA==` decodes to the single byte
`0x30`; `deserialize_as_packets` then evaluates `&data[..4]` on a 1-byte
slice and panics — deserialization neither returns a token nor a typed
error. -/
theorem c3_short_input_panics : deserialize_v1 (ascii "MA==") = .crash := by
  decide

/-- C3 (amended): V1 deserialization is not panic-free.  It panics whenever
fewer than 4 bytes remain before a length header, whenever a declared packet
length is below 4 or exceeds the remaining bytes, and whenever a `signature`
packet value is shorter than 32 bytes; those malformed inputs abort instead
of producing the typed error value. -/
theorem c3_panics_characterized :
    (∀ (data : List Nat) (packets : List Packet), data ≠ [] →
      data.length < 4 → deserialize_as_packets data packets = .crash) ∧
    (∀ (data : List Nat) (packets : List Packet) (size : Nat),
      4 ≤ data.length → validUtf8 (data.take 4) = true →
      from_str_radix16 (data.take 4) = some size →
      (size < 4 ∨ data.length < size) →
      deserialize_as_packets data packets = .crash) ∧
    (∀ (m : Macaroon) (c : Caveat) (p : Packet), p.key = SIGNATURE →
      p.value.length < 32 → processPacket m c p = .crash) := by
  refine ⟨?_, ?_, ?_⟩
  · intro data packets hne hlen
    obtain ⟨b, l, rfl⟩ : ∃ b l, data = b :: l := by
      cases data with
      | nil => exact absurd rfl hne
      | cons b l => exact ⟨b, l, rfl⟩
    unfold deserialize_as_packets
    simp only [deserializePacketsFuel]
    rw [if_pos hlen]
  · intro data packets size hlen4 hvalid hhex hbad
    obtain ⟨b, l, rfl⟩ : ∃ b l, data = b :: l := by
      cases data with
      | nil => simp at hlen4
      | cons b l => exact ⟨b, l, rfl⟩
    unfold deserialize_as_packets
    simp only [deserializePacketsFuel]
    rw [if_neg (by omega)]
    rw [if_neg (by simpa using hvalid)]
    simp only [hhex]
    rw [if_pos hbad]
  · intro m c p hkey hlen
    obtain ⟨k, v⟩ := p
    simp only at hkey hlen
    subst hkey
    have hne1 : ¬ ((SIGNATURE : List Nat) = LOCATION) := by decide
    have hne2 : ¬ ((SIGNATURE : List Nat) = IDENTIFIER) := by decide
    simp [processPacket, hne1, hne2, hlen]

/-- Witness for the amended C3: the three panic modes at concrete inputs. -/
theorem c3_panics_characterized_witness :
    deserialize_as_packets [48] [] = .crash ∧
    deserialize_as_packets [48, 48, 54, 48] [] = .crash ∧
    processPacket defaultMacaroon defaultCaveat ⟨SIGNATURE, [1, 2, 3]⟩ =
      .crash :=
  ⟨c3_panics_characterized.1 [48] [] (by decide) (by decide),
   c3_panics_characterized.2.1 [48, 48, 54, 48] [] 96 (by decide) (by decide)
     (by decide) (by decide),
   c3_panics_characterized.2.2 defaultMacaroon defaultCaveat
     ⟨SIGNATURE, [1, 2, 3]⟩ (by decide) (by decide)⟩

def sig40 : List Nat := (List.range 40).map (fun i => i + 100)

def c4Input40 : List Nat := to_base64 (serialize_as_packet SIGNATURE sig40)

def c4Input10 : List Nat :=
  to_base64 (serialize_as_packet SIGNATURE (List.replicate 10 5))

def c4Input31 : List Nat :=
  to_base64 (serialize_as_packet SIGNATURE (List.replicate 31 7))

/-- C4 counterexample: a wire `signature` packet whose value is 10 bytes
makes `deserialize_v1` panic (`&packet.value[..32]` out of range) instead of
failing with a malformed-sequence error. -/
theorem c4_short_signature_panics : deserialize_v1 c4Input10 = .crash := by
  decide

/-- C4 (amended): a `signature` value of at least 32 bytes is truncated to
its first 32 bytes; a 10-byte value panics (out-of-range slice) rather than
returning a typed error; and a 31-byte value does not fail at all — the
parser keeps the packet's trailing newline in the value, so the stored
signature becomes the 31 bytes plus `0x0A`. -/
theorem c4_signature_truncation_amended :
    deserialize_v1 c4Input40 = .ok ⟨[], [], [], sig40.take 32⟩ ∧
    deserialize_v1 c4Input10 = .crash ∧
    deserialize_v1 c4Input31 =
      .ok ⟨[], [], [], List.replicate 31 7 ++ [10]⟩ := by
  decide

/-- C5 counterexample: the empty input is valid base64 of the empty packet
stream; deserialization succeeds with the default token, whose signature is
empty (0 bytes), not 32. -/
theorem c5_missing_signature_accepted :
    deserialize_v1 [] = .ok defaultMacaroon ∧
    defaultMacaroon.signature.length = 0 := by
  decide

/-- C5 (amended): after a successful V1 deserialization whose packet stream
contains at least one `signature` packet, the token's signature is exactly
32 bytes; an input with no signature packet still succeeds but keeps the
default empty signature. -/
theorem c5_signature_length_32 (input data : List Nat) (packets : List Packet)
    (m : Macaroon) (hdec : base64_decode input = .ok data)
    (hparse : deserialize_as_packets data [] = .ok packets)
    (hsig : ∃ p ∈ packets, p.key = SIGNATURE)
    (hok : deserialize_v1 input = .ok m) :
    m.signature.length = 32 := by
  unfold deserialize_v1 at hok
  simp only [hdec, hparse] at hok
  cases hf : foldPackets packets defaultMacaroon defaultCaveat with
  | ok mc =>
    obtain ⟨m1, c1⟩ := mc
    simp only [hf] at hok
    injection hok with he
    exact he ▸ foldPackets_sig_present packets _ _ m1 c1 hsig hf
  | err e => simp only [hf] at hok; exact RResult.noConfusion hok
  | crash => simp only [hf] at hok; exact RResult.noConfusion hok

def c5WitnessBytes : List Nat :=
  serialize_as_packet SIGNATURE (List.replicate 32 3)

/-- Witness for the amended C5: a stream with one signature packet yields a
32-byte signature. -/
theorem c5_signature_length_32_witness :
    (Macaroon.mk [] [] [] (List.replicate 32 3)).signature.length = 32 :=
  c5_signature_length_32 (to_base64 c5WitnessBytes) c5WitnessBytes
    [⟨SIGNATURE, List.replicate 32 3 ++ [10]⟩] ⟨[], [], [], List.replicate 32 3⟩
    (by decide) (by decide)
    ⟨⟨SIGNATURE, List.replicate 32 3 ++ [10]⟩, by decide, rfl⟩ (by decide)

def c6VidOnly : List Nat := to_base64 (
  serialize_as_packet VID [118] ++
  serialize_as_packet SIGNATURE (List.replicate 32 2))

def c6VidCid : List Nat := to_base64 (
  serialize_as_packet VID [118] ++ serialize_as_packet CID [97] ++
  serialize_as_packet SIGNATURE (List.replicate 32 2))

/-- C6 counterexample: a `vid` packet with no open caveat (no prior `cid`)
does not fail — deserialization succeeds, silently dropping the orphan
verifier id. -/
theorem c6_vid_without_cid_succeeds :
    deserialize_v1 c6VidOnly = .ok ⟨[], [], [], List.replicate 32 2⟩ := by
  decide

/-- C6 (amended): `vid` (and `cl`) with no open caveat cause no error: the
value is stored on the empty accumulator, which is silently dropped at the
`signature` packet if no `cid` ever arrives, and leaks into the next caveat
if a `cid` follows. -/
theorem c6_vid_orphan_behavior :
    deserialize_v1 c6VidOnly = .ok ⟨[], [], [], List.replicate 32 2⟩ ∧
    deserialize_v1 c6VidCid =
      .ok ⟨[], [], [⟨[97], some [118], none⟩], List.replicate 32 2⟩ := by
  decide

/-- C7 counterexample: `serialize_v2` on a concrete token returns the
successful empty string, and `deserialize_v2` panics via `unimplemented!()`
— neither fails with a typed not-implemented error. -/
theorem c7_stub_counterexample :
    serialize_v2 defaultMacaroon = .ok [] ∧
    deserialize_v2 (ascii "x") = .crash :=
  ⟨rfl, rfl⟩

/-- C7 (amended): for every token and input, the V2/V2-JSON serializers
return `Ok("")` (a successful empty result) and the V2/V2-JSON deserializers
panic via `unimplemented!()`; no typed not-implemented error exists. -/
theorem c7_stub_behavior : ∀ (m : Macaroon) (s : List Nat),
    serialize_v2 m = .ok [] ∧ serialize_v2j m = .ok [] ∧
    deserialize_v2 s = .crash ∧ deserialize_v2j s = .crash :=
  fun _ _ => ⟨rfl, rfl, rfl, rfl⟩

def hugeValue : List Nat := List.replicate 65527 97

/-- C8 counterexample: a `cid` packet of total size 65536 (0x10000) is
serialized without any error — `serialize_as_packet` is total and its header
wraps to `"0000"` instead of failing. -/
theorem c8_oversized_packet_wraps :
    (serialize_as_packet CID hugeValue).length = 65536 ∧
    (serialize_as_packet CID hugeValue).take 4 = [48, 48, 48, 48] ∧
    (serialize_v1 ⟨[], [], [⟨hugeValue, none, none⟩], []⟩).isOk = true := by
  refine ⟨?_, ?_, rfl⟩
  · rw [serialize_as_packet_length]
    have h1 : CID.length = 3 := by decide
    have h2 : hugeValue.length = 65527 := by
      unfold hugeValue
      rw [List.length_replicate]
    rw [h1, h2]
  · rw [serialize_as_packet_parts]
    rw [List.take_left'
      (show (packet_header (6 + CID.length + hugeValue.length)).length = 4
        from rfl)]
    have h1 : CID.length = 3 := by decide
    have h2 : hugeValue.length = 65527 := by
      unfold hugeValue
      rw [List.length_replicate]
    rw [h1, h2]
    decide

/-- C8 (amended): the packet length header is the 4 lowercase hex digits of
the size reduced modulo 0x10000 — sizes above 0xFFFF wrap silently — and
serialization always succeeds rather than failing on oversized packets. -/
theorem c8_header_wraps_amended :
    (∀ size : Nat, packet_header size = packet_header (size % 65536)) ∧
    (∀ size : Nat, (packet_header size).length = 4 ∧
      ∀ b ∈ packet_header size, (48 ≤ b ∧ b ≤ 57) ∨ (97 ≤ b ∧ b ≤ 102)) ∧
    (∀ tag value : List Nat, (serialize_as_packet tag value).take 4 =
      packet_header (6 + tag.length + value.length)) ∧
    (∀ m : Macaroon, (serialize_v1 m).isOk = true) := by
  refine ⟨?_, ?_, ?_, fun m => rfl⟩
  · intro size
    unfold packet_header
    have e1 : size / 4096 % 16 = size % 65536 / 4096 % 16 := by omega
    have e2 : size / 256 % 16 = size % 65536 / 256 % 16 := by omega
    have e3 : size / 16 % 16 = size % 65536 / 16 % 16 := by omega
    have e4 : size % 16 = size % 65536 % 16 := by omega
    rw [e1, e2, e3, e4]
  · intro size
    refine ⟨rfl, ?_⟩
    intro b hb
    have hdig : ∀ d < 16, (48 ≤ to_hex_char d ∧ to_hex_char d ≤ 57) ∨
        (97 ≤ to_hex_char d ∧ to_hex_char d ≤ 102) := by decide
    simp only [packet_header, List.mem_cons, List.not_mem_nil, or_false] at hb
    rcases hb with h | h | h | h <;>
      exact h ▸ hdig _ (Nat.mod_lt _ (by norm_num))
  · intro tag value
    rw [serialize_as_packet_parts]
    exact List.take_left'
      (show (packet_header (6 + tag.length + value.length)).length = 4
        from rfl)

/-- C9: the known fixture deserializes to location `http://example.org/`,
identifier `keyid`, no caveats, and the specific 32-byte signature from the
repository's tests. -/
theorem c9_fixture_deserializes :
    deserialize_v1 SERIALIZED_V1 =
      .ok ⟨ascii "http://example.org/", ascii "keyid", [], SIGNATURE_V1⟩ ∧
    SIGNATURE_V1.length = 32 := by
  constructor
  · decide
  · decide

/-- C10: `serialize_v1` is total — it returns `Ok` on every token, with no
validation of signature length or field sizes. -/
theorem c10_serialize_v1_total :
    ∀ m : Macaroon, ∃ s, serialize_v1 m = RResult.ok s :=
  fun _ => ⟨_, rfl⟩
